import Mathlib

/-!
Verification of the QR record lifecycle and protection subsystem of the
aws-cebu-demo repository, as a shallow embedding in Lean.

The embedding translates the following source components:
* the fixed-window `RateLimiter` (`check`, `reset`) from the rate-limit module;
* the tag-invalidated TTL `MemoryCache` (`get`, `set`, `delete`, `invalidateByTags`);
* the REST tracking Lambda (`GetCommand` / `PutCommand` / atomic `UpdateCommand`)
  and the GraphQL `trackQr` Lambda (read-modify-write counter update);
* the client `useQrGeneration.generateQr` hooks (the dedup variant and the
  variant that allocates a fresh ulid unconditionally) together with the
  `uploadQrImage` Lambda (`validateTargetUrl`, `validateQrId`).

Timestamps and counters are modelled as `Int` (JavaScript numbers used at
integral values); key-value tables are association lists keyed by strings;
the platform WHATWG `URL` constructor is modelled by an executable
`scheme://host[:port][/path]` parser that validates the scheme, host and
port components.
-/

set_option autoImplicit false

namespace AwsCebuDemo

/-! ## Rate limiter (src: RateLimiter class, part_008 lines 1101-1174) -/

/-- One fixed-window counter: `{ count, resetTime }` as stored in the limiter's map. -/
structure RateLimitEntry where
  count : Int
  resetTime : Int
  deriving Repr, DecidableEq

/-- Limiter configuration `{ windowMs, maxRequests }`, fixed at construction. -/
structure RateLimitConfig where
  windowMs : Int
  maxRequests : Int
  deriving Repr, DecidableEq

/-- The record returned by `RateLimiter.check`. -/
structure CheckResult where
  allowed : Bool
  remaining : Int
  resetTime : Int
  deriving Repr, DecidableEq

/-- The limiter's private `Map<string, RateLimitEntry>` store. -/
abbrev LimiterStore : Type := String → Option RateLimitEntry

/-- `getKey(identifier)` prepends the `rate_limit:` namespace. -/
def getKey (identifier : String) : String := "rate_limit:" ++ identifier

/-- `Map.set` on the limiter store. -/
def limiterSet (s : LimiterStore) (k : String) (e : RateLimitEntry) : LimiterStore :=
  fun k' => if k' = k then some e else s k'

/-- `Map.delete` on the limiter store (used by `reset`). -/
def limiterDelete (s : LimiterStore) (k : String) : LimiterStore :=
  fun k' => if k' = k then none else s k'

/--
`RateLimiter.check(identifier)` at time `now`, returning the result record and
the updated store.  Mirrors the source branch structure: fresh window when the
entry is absent or `now > entry.resetTime`; denial without mutation when
`entry.count >= maxRequests`; otherwise increment.
-/
def RateLimiter.check (config : RateLimitConfig) (store : LimiterStore)
    (identifier : String) (now : Int) : CheckResult × LimiterStore :=
  let key := getKey identifier
  match store key with
  | none =>
      let newEntry : RateLimitEntry := ⟨1, now + config.windowMs⟩
      (⟨true, config.maxRequests - 1, newEntry.resetTime⟩, limiterSet store key newEntry)
  | some entry =>
      if now > entry.resetTime then
        let newEntry : RateLimitEntry := ⟨1, now + config.windowMs⟩
        (⟨true, config.maxRequests - 1, newEntry.resetTime⟩, limiterSet store key newEntry)
      else if entry.count ≥ config.maxRequests then
        (⟨false, 0, entry.resetTime⟩, store)
      else
        (⟨true, config.maxRequests - (entry.count + 1), entry.resetTime⟩,
          limiterSet store key ⟨entry.count + 1, entry.resetTime⟩)

/-- `RateLimiter.reset(identifier)` clears a single identity's counter. -/
def RateLimiter.reset (store : LimiterStore) (identifier : String) : LimiterStore :=
  limiterDelete store (getKey identifier)

/-- Run `check` once per timestamp in the list, threading the store. -/
def checkRun (config : RateLimitConfig) (identifier : String) :
    List Int → LimiterStore → List CheckResult × LimiterStore
  | [], s => ([], s)
  | t :: ts, s =>
      let step := RateLimiter.check config s identifier t
      let rest := checkRun config identifier ts step.2
      (step.1 :: rest.1, rest.2)

/-! ## Cache (src: MemoryCache class, part_008 lines 674-749) -/

/-- One cache entry `{ data, timestamp, ttl, tags? }`. -/
structure CacheEntry (α : Type) where
  data : α
  timestamp : Int
  ttl : Int
  tags : Option (List String)
  deriving Repr, DecidableEq

/-- `CacheOptions { ttl?, tags? }` as passed to `set`. -/
structure CacheOptions where
  ttl : Option Int
  tags : Option (List String)
  deriving Repr, DecidableEq

/-- The cache's `Map<string, CacheEntry>` as an association list (insertion order). -/
abbrev MemoryCache (α : Type) : Type := List (String × CacheEntry α)

/-- `Map.get`: first (only) entry under the key. -/
def cacheFind {α : Type} (c : MemoryCache α) (key : String) : Option (CacheEntry α) :=
  (List.find? (fun kv => kv.1 == key) c).map (fun kv => kv.2)

/-- `Map.delete key`. -/
def cacheDelete {α : Type} (c : MemoryCache α) (key : String) : MemoryCache α :=
  List.filter (fun kv => !(kv.1 == key)) c

/--
Effective TTL of a `set` call: the source computes `options.ttl || 5 * 60 * 1000`,
so an absent ttl and the (falsy) ttl `0` both fall back to the 5-minute default.
-/
def effectiveTtl (o : CacheOptions) : Int :=
  match o.ttl with
  | none => 5 * 60 * 1000
  | some t => if t = 0 then 5 * 60 * 1000 else t

/-- `MemoryCache.set(key, data, options)` at time `now` (`Date.now()`). -/
def cacheSet {α : Type} (c : MemoryCache α) (key : String) (data : α)
    (options : CacheOptions) (now : Int) : MemoryCache α :=
  cacheDelete c key ++ [(key, ⟨data, now, effectiveTtl options, options.tags⟩)]

/--
`MemoryCache.get(key)` at time `now`: absent keys give `null`; an entry with
`now > entry.timestamp + entry.ttl` is deleted lazily and reported absent;
otherwise the stored data is returned.  The updated map is returned alongside.
-/
def cacheGet {α : Type} (c : MemoryCache α) (key : String) (now : Int) :
    Option α × MemoryCache α :=
  match cacheFind c key with
  | none => (none, c)
  | some entry =>
      if now > entry.timestamp + entry.ttl then (none, cacheDelete c key)
      else (some entry.data, c)

/-- Does `entry.tags && entry.tags.some(tag => tags.includes(tag))` hold? -/
def entryTagsMatch {α : Type} (e : CacheEntry α) (tags : List String) : Bool :=
  match e.tags with
  | none => false
  | some ts => ts.any (fun tag => tags.contains tag)

/--
`MemoryCache.invalidateByTags(tags)`: delete every entry whose tag set meets
`tags`, returning the number of deleted entries and the remaining map.
-/
def cacheInvalidateByTags {α : Type} (c : MemoryCache α) (tags : List String) :
    Nat × MemoryCache α :=
  (List.countP (fun kv => entryTagsMatch kv.2 tags) c,
    List.filter (fun kv => !(entryTagsMatch kv.2 tags)) c)

/-! ## Cache lemmas and theorems -/

theorem cacheFind_eq_none_iff {α : Type} (c : MemoryCache α) (key : String) :
    cacheFind c key = none ↔ ∀ kv ∈ c, (kv.1 == key) = false := by
  unfold cacheFind
  rw [Option.map_eq_none']
  rw [List.find?_eq_none]
  constructor
  · intro h kv hm
    have := h kv hm
    simpa using this
  · intro h kv hm
    simp [h kv hm]

theorem cacheFind_cacheDelete_self {α : Type} (c : MemoryCache α) (key : String) :
    cacheFind (cacheDelete c key) key = none := by
  rw [cacheFind_eq_none_iff]
  intro kv hm
  have := List.of_mem_filter hm
  simpa using this

theorem cacheFind_cacheSet_self {α : Type} (c : MemoryCache α) (key : String) (v : α)
    (o : CacheOptions) (now : Int) :
    cacheFind (cacheSet c key v o now) key = some ⟨v, now, effectiveTtl o, o.tags⟩ := by
  unfold cacheSet cacheFind
  rw [List.find?_append]
  have hnone : List.find? (fun kv => kv.1 == key) (cacheDelete c key) = none := by
    have := cacheFind_cacheDelete_self c key
    unfold cacheFind at this
    exact Option.map_eq_none.mp this
  rw [hnone]
  simp

/-- A key that cannot be found in a list cannot be found in a filtered sublist. -/
theorem cacheFind_filter_none {α : Type} (c : MemoryCache α) (key : String)
    (p : String × CacheEntry α → Bool) (h : cacheFind c key = none) :
    cacheFind (List.filter p c) key = none := by
  rw [cacheFind_eq_none_iff] at h ⊢
  intro kv hm
  exact h kv (List.mem_of_mem_filter hm)

/--
With pairwise-distinct keys, `find?` locates exactly the member with the key.
-/
theorem find?_of_mem_nodup_keys {β : Type} (key : String) :
    ∀ (l : List (String × β)), (l.map Prod.fst).Nodup →
      ∀ kv ∈ l, kv.1 = key → List.find? (fun x => x.1 == key) l = some kv := by
  intro l
  induction l with
  | nil => intro _ kv hm; simp at hm
  | cons h rest ih =>
      intro hnd kv hm hk
      have hnd' := hnd
      rw [List.map_cons, List.nodup_cons] at hnd'
      rcases List.mem_cons.mp hm with he | hrest
      · subst he
        simp [List.find?, hk]
      · have hne : (h.1 == key) = false := by
          rw [beq_eq_false_iff_ne]
          intro hcontra
          exact hnd'.1 (hcontra ▸ hk ▸ List.mem_map_of_mem Prod.fst hrest)
        simp only [List.find?, hne]
        exact ih hnd'.2 kv hrest hk

/--
C7 (amended).  For every nonzero requested ttl, `set` followed by `get` returns
the value while `now ≤ writtenAt + ttl`, and once `now > writtenAt + ttl` the
`get` reports the key absent and lazily removes the entry.
-/
theorem cache_set_get_ttl {α : Type} (c : MemoryCache α) (key : String) (v : α) (t : Int)
    (tags : Option (List String)) (wt now : Int) (ht : t ≠ 0) :
    (now ≤ wt + t → (cacheGet (cacheSet c key v ⟨some t, tags⟩ wt) key now).1 = some v) ∧
    (now > wt + t →
      (cacheGet (cacheSet c key v ⟨some t, tags⟩ wt) key now).1 = none ∧
        cacheFind (cacheGet (cacheSet c key v ⟨some t, tags⟩ wt) key now).2 key = none) := by
  have httl : effectiveTtl ⟨some t, tags⟩ = t := by
    simp [effectiveTtl, ht]
  have hfind := cacheFind_cacheSet_self c key v ⟨some t, tags⟩ wt
  rw [httl] at hfind
  constructor
  · intro hle
    unfold cacheGet
    rw [hfind]
    have : ¬ now > wt + t := by omega
    simp [this]
  · intro hgt
    unfold cacheGet
    rw [hfind]
    dsimp only
    rw [if_pos hgt]
    exact ⟨rfl, cacheFind_cacheDelete_self ..⟩

/--
Witness for C7 (amended): a 1000ms entry written at 0 is served at 500 and is
gone at 1001.
-/
theorem cache_set_get_ttl_witness :
    (cacheGet (cacheSet ([] : MemoryCache Nat) "k" 5 ⟨some 1000, none⟩ 0) "k" 500).1 = some 5 ∧
    (cacheGet (cacheSet ([] : MemoryCache Nat) "k" 5 ⟨some 1000, none⟩ 0) "k" 1001).1 = none :=
  ⟨(cache_set_get_ttl [] "k" 5 1000 none 0 500 (by norm_num)).1 (by norm_num),
    ((cache_set_get_ttl [] "k" 5 1000 none 0 1001 (by norm_num)).2 (by norm_num)).1⟩

/--
C7 (counterexample).  The claim fails at the requested ttl `0`: `0` is falsy in
`options.ttl || 5 * 60 * 1000`, so the entry is stored with the 5-minute
default, and a `get` at `now = 1 > writtenAt + ttl = 0 + 0` still returns the
value instead of reporting it absent.
-/
theorem cache_ttl_zero_counterexample :
    (1 : Int) > 0 + 0 ∧
    (cacheGet (cacheSet ([] : MemoryCache Nat) "k" 7 ⟨some 0, none⟩ 0) "k" 1).1 = some 7 :=
  ⟨by norm_num, rfl⟩

/--
C8.  `invalidateByTags` removes exactly the entries whose tag set intersects
the given tags: the returned count plus the number of surviving entries is the
original size; every entry whose tags intersect is no longer found; every
entry whose tags do not intersect (including tagless entries) survives
untouched.
-/
theorem cache_invalidateByTags_spec {α : Type} (c : MemoryCache α) (tags : List String)
    (hnd : (c.map Prod.fst).Nodup) :
    ((cacheInvalidateByTags c tags).1 + (cacheInvalidateByTags c tags).2.length = c.length) ∧
    (∀ (key : String) (e : CacheEntry α), cacheFind c key = some e →
        entryTagsMatch e tags = true → cacheFind (cacheInvalidateByTags c tags).2 key = none) ∧
    (∀ (key : String) (e : CacheEntry α), cacheFind c key = some e →
        entryTagsMatch e tags = false → cacheFind (cacheInvalidateByTags c tags).2 key = some e) := by
  refine ⟨?_, ?_, ?_⟩
  · show List.countP _ c + (List.filter _ c).length = c.length
    rw [← List.countP_eq_length_filter]
    clear hnd
    induction c with
    | nil => simp
    | cons kv c ih =>
        by_cases h : entryTagsMatch kv.2 tags <;>
          simp [List.countP_cons, h] <;> omega
  · intro key e hf hmatch
    obtain ⟨kv₀, hkv₀, hsnd⟩ := Option.map_eq_some'.mp hf
    have hmem : kv₀ ∈ c := List.mem_of_find?_eq_some hkv₀
    have hkey : kv₀.1 = key := by
      have := List.find?_some hkv₀
      simpa using this
    rw [cacheFind_eq_none_iff]
    intro kv hm
    rw [beq_eq_false_iff_ne]
    intro hkeq
    have hmem' : kv ∈ c := List.mem_of_mem_filter hm
    have hkeep : entryTagsMatch kv.2 tags = false := by
      have := List.of_mem_filter hm
      simpa using this
    have : List.find? (fun x => x.1 == key) c = some kv :=
      find?_of_mem_nodup_keys key c hnd kv hmem' hkeq
    rw [hkv₀] at this
    cases this
    rw [hsnd] at hkeep
    rw [hmatch] at hkeep
    cases hkeep
  · intro key e hf hmatch
    obtain ⟨kv₀, hkv₀, hsnd⟩ := Option.map_eq_some'.mp hf
    have hmem : kv₀ ∈ c := List.mem_of_find?_eq_some hkv₀
    have hkey : kv₀.1 = key := by
      have := List.find?_some hkv₀
      simpa using this
    have hkeep : (fun kv => !(entryTagsMatch kv.2 tags)) kv₀ = true := by
      simp [hsnd, hmatch]
    have hmem' : kv₀ ∈ (cacheInvalidateByTags c tags).2 :=
      List.mem_filter.mpr ⟨hmem, hkeep⟩
    have hnd' : ((cacheInvalidateByTags c tags).2.map Prod.fst).Nodup :=
      hnd.sublist ((List.filter_sublist c).map Prod.fst)
    have := find?_of_mem_nodup_keys key (cacheInvalidateByTags c tags).2 hnd' kv₀ hmem' hkey
    unfold cacheFind
    rw [this]
    simp [hsnd]

/--
Witness for C8: invalidating `owner:42` drops the `owner:42`-tagged entry and
keeps the differently-tagged one.
-/
theorem cache_invalidateByTags_spec_witness :
    cacheFind (cacheInvalidateByTags
        ([("a", ⟨1, 0, 1000, some ["owner:42"]⟩), ("b", ⟨2, 0, 1000, some ["owner:7"]⟩),
          ("c", ⟨3, 0, 1000, none⟩)] : MemoryCache Nat) ["owner:42"]).2 "a" = none ∧
    cacheFind (cacheInvalidateByTags
        ([("a", ⟨1, 0, 1000, some ["owner:42"]⟩), ("b", ⟨2, 0, 1000, some ["owner:7"]⟩),
          ("c", ⟨3, 0, 1000, none⟩)] : MemoryCache Nat) ["owner:42"]).2 "b" =
      some ⟨2, 0, 1000, some ["owner:7"]⟩ :=
  ⟨(cache_invalidateByTags_spec _ ["owner:42"] (by decide)).2.1 "a" ⟨1, 0, 1000, some ["owner:42"]⟩
      rfl rfl,
    (cache_invalidateByTags_spec _ ["owner:42"] (by decide)).2.2 "b" ⟨2, 0, 1000, some ["owner:7"]⟩
      rfl rfl⟩

/-! ## Records, scan events and the tracking path
(src: REST tracking Lambda, part_001 lines 12-125; GraphQL `trackQr` Lambda,
amplify/functions/qrTrackFn/handler.ts lines 4-54) -/

/--
One `QrItems` row.  `scanCount` is optional because DynamoDB items may lack the
attribute (both handlers guard with `if_not_exists(scanCount, 0)` resp.
`qrItem.scanCount || 0`).
-/
structure QrItem where
  id : String
  targetUrl : String
  s3Key : String
  createdAt : String
  scanCount : Option Int
  lastScanAt : Option String
  ownerSub : Option String
  deriving Repr, DecidableEq

/-- One `QrScans` row. -/
structure QrScan where
  qrId : String
  scanAt : String
  ua : String
  referer : String
  ip : String
  country : String
  deriving Repr, DecidableEq

/-- The two tables touched by the tracking path. -/
structure QrDataStore where
  items : List QrItem
  scans : List QrScan
  deriving Repr, DecidableEq

/-- Request metadata extracted from the REST event headers. -/
structure ScanMeta where
  ua : String
  referer : String
  ip : String
  country : String
  deriving Repr, DecidableEq

/-- `GetCommand` / `QrItems.get`: fetch by primary key. -/
def getQrItem (items : List QrItem) (id : String) : Option QrItem :=
  List.find? (fun it => it.id == id) items

/--
The `UpdateCommand` of the REST handler:
`SET scanCount = if_not_exists(scanCount, :zero) + :one, lastScanAt = :now`,
a single store-level atomic increment applied to the current item state.
-/
def atomicIncrementScan (items : List QrItem) (id : String) (now : String) : List QrItem :=
  items.map (fun it =>
    if it.id == id then
      { it with scanCount := some (it.scanCount.getD 0 + 1), lastScanAt := some now }
    else it)

/--
The `QrItems.update` call of the GraphQL handler: an absolute write of a count
computed at the service layer (`scanCount: currentScanCount + 1`).
-/
def writeScanCount (items : List QrItem) (id : String) (newCount : Int) (now : String) :
    List QrItem :=
  items.map (fun it =>
    if it.id == id then { it with scanCount := some newCount, lastScanAt := some now }
    else it)

/-- The read half of the GraphQL handler's counter update: `qrItem.scanCount || 0`. -/
def readScanCount (items : List QrItem) (id : String) : Int :=
  match getQrItem items id with
  | none => 0
  | some it => it.scanCount.getD 0

/-- Outcome of the REST tracking Lambda. -/
inductive TrackRestResult where
  | badRequest
  | notFound
  | redirect (location : String)
  deriving Repr, DecidableEq

/--
REST tracking Lambda (part_001): missing path id gives 400; an unknown id gives
404 before any write; otherwise a `QrScans` row is put and the counters are
updated by the atomic `UpdateCommand`, answering 302 to the target URL.
-/
def trackRest (st : QrDataStore) (id : Option String) (meta : ScanMeta) (now : String) :
    TrackRestResult × QrDataStore :=
  match id with
  | none => (.badRequest, st)
  | some id =>
      match getQrItem st.items id with
      | none => (.notFound, st)
      | some qrItem =>
          let st₁ : QrDataStore :=
            { st with scans := st.scans ++ [⟨id, now, meta.ua, meta.referer, meta.ip, meta.country⟩] }
          let st₂ : QrDataStore := { st₁ with items := atomicIncrementScan st₁.items id now }
          (.redirect qrItem.targetUrl, st₂)

/-- Outcome of the GraphQL `trackQr` Lambda. -/
inductive TrackGqlResult where
  | ok (targetUrl : String) (scanCount : Int)
  | err (msg : String)
  deriving Repr, DecidableEq

/--
GraphQL `trackQr` Lambda (qrTrackFn/handler.ts): unknown ids throw before any
write; otherwise it logs a scan with empty metadata and updates the counter as
`currentScanCount + 1`, where `currentScanCount` was read from the fetched item
(a service-layer read-modify-write, not a store-level increment).
-/
def trackQrGql (st : QrDataStore) (qrId : Option String) (now : String) :
    TrackGqlResult × QrDataStore :=
  match qrId with
  | none => (.err "Missing QR ID", st)
  | some qrId =>
      match getQrItem st.items qrId with
      | none => (.err "QR code not found", st)
      | some qrItem =>
          let currentScanCount := qrItem.scanCount.getD 0
          let st₁ : QrDataStore :=
            { st with scans := st.scans ++ [⟨qrId, now, "", "", "", ""⟩] }
          let st₂ : QrDataStore :=
            { st₁ with items := writeScanCount st₁.items qrId (currentScanCount + 1) now }
          (.ok qrItem.targetUrl (currentScanCount + 1), st₂)

/-! ## Model of the platform WHATWG `URL` constructor

The Lambdas call `new URL(...)` and read `protocol` / `hostname` /
`toString()`.  The platform parser is modelled executably: a URL parses when
it has the shape `scheme://host[:port][/path...]` with an alphabetic scheme, a
nonempty host of alphanumeric / `.` / `-` / `_` characters and a numeric (or
empty) port.  `protocol` is the lowercased scheme with a trailing colon, and
serialization re-emits the components (with `/` as the default path), which is
how inputs such as `https://javascript:alert(1)` (invalid port) come to be
rejected exactly as the platform rejects them. -/

/-- JS whitespace for the model of `String.prototype.trim`. -/
def isJsSpace (c : Char) : Bool := c == ' ' || c == '\t' || c == '\n' || c == '\r'

/-- `String.prototype.trim`, modelled on the character list. -/
def jsTrim (s : String) : String :=
  String.mk (((s.data.dropWhile isJsSpace).reverse.dropWhile isJsSpace).reverse)

/-- `String.prototype.toLowerCase` (ASCII, which is all the code compares). -/
def jsToLower (s : String) : String := String.mk (s.data.map Char.toLower)

/-- Does `pat` occur at the head of `l`? -/
def headMatches : List Char → List Char → Bool
  | [], _ => true
  | _ :: _, [] => false
  | p :: ps, c :: cs => p == c && headMatches ps cs

/-- Split `l` at the first occurrence of `sep`, if any. -/
def splitFirstSep (sep : List Char) : List Char → Option (List Char × List Char)
  | [] => none
  | c :: cs =>
      if headMatches sep (c :: cs) then some ([], (c :: cs).drop sep.length)
      else (splitFirstSep sep cs).map (fun p => (c :: p.1, p.2))

/-- The `://` separator between scheme and authority. -/
def schemeSepChars : List Char := [':', '/', '/']

/-- Scheme characters are alphabetic (simplified WHATWG scheme grammar). -/
def schemeOkChars (s : List Char) : Bool :=
  !s.isEmpty && s.all Char.isAlpha

/-- Characters admitted in a host name by the model parser. -/
def isHostChar (c : Char) : Bool :=
  c.isAlphanum || c == '.' || c == '-' || c == '_'

/-- A nonempty host of admitted characters. -/
def hostOkChars (h : List Char) : Bool :=
  !h.isEmpty && h.all isHostChar

/-- Split an authority into host and (possibly empty) port at its single colon. -/
def splitHostPort (hp : List Char) : Option (List Char × List Char) :=
  match splitFirstSep [':'] hp with
  | none => some (hp, [])
  | some (h, p) => if p.contains ':' then none else some (h, p)

/-- The components of a parsed URL (scheme kept as written). -/
structure UrlParts where
  scheme : List Char
  host : List Char
  port : List Char
  path : List Char
  deriving Repr, DecidableEq

/-- `new URL(...)` on a character list, as described above. -/
def parseUrlChars (l : List Char) : Option UrlParts :=
  match splitFirstSep schemeSepChars l with
  | none => none
  | some (scheme, rest) =>
      if schemeOkChars scheme then
        let authority := rest.takeWhile (fun c => !(c == '/'))
        let path := rest.dropWhile (fun c => !(c == '/'))
        match splitHostPort authority with
        | none => none
        | some (h, p) =>
            if hostOkChars h && (p.isEmpty || p.all Char.isDigit) then
              some ⟨scheme, h, p, path⟩
            else none
      else none

/-- `new URL(s)`, returning `none` where the platform would throw. -/
def parseUrl (s : String) : Option UrlParts := parseUrlChars s.data

/-- `url.protocol`: the lowercased scheme followed by a colon. -/
def urlProtocol (u : UrlParts) : String := jsToLower (String.mk u.scheme) ++ ":"

/-- `url.hostname` (lowercased, as the Lambda reads it). -/
def urlHostname (u : UrlParts) : String := jsToLower (String.mk u.host)

/-- `url.toString()` on the model components (default path `/`). -/
def serializeUrlChars (u : UrlParts) : List Char :=
  u.scheme ++ schemeSepChars ++ u.host ++
    (if u.port.isEmpty then [] else ':' :: u.port) ++
    (if u.path.isEmpty then ['/'] else u.path)

/-- `url.toString()`. -/
def serializeUrl (u : UrlParts) : String := String.mk (serializeUrlChars u)

/-! ## URL validation and the generation path
(src: `uploadQrImage` Lambda, amplify/functions/qrGenerateFn/handler.ts;
client `useQrGeneration.generateQr` hooks, part_016 and part_015) -/

/-- The test `/^https?:\/\//i` used by both the client hook and the Lambda. -/
def hasHttpScheme (s : String) : Bool :=
  headMatches "http://".data (jsToLower s).data || headMatches "https://".data (jsToLower s).data

/-- Client-side normalization: prepend `https://` when the scheme test fails. -/
def normalizeClientUrl (s : String) : String :=
  if hasHttpScheme s then s else "https://" ++ s

/-- `MAX_URL_LENGTH` of the Lambda. -/
def MAX_URL_LENGTH : Nat := 2048

/-- `ALLOWED_PROTOCOLS` of the Lambda. -/
def ALLOWED_PROTOCOLS : List String := ["http:", "https:"]

/-- The private-range test `/^(10\.|172\.(1[6-9]|2[0-9]|3[01])\.|192\.168\.)/`. -/
def isPrivateIp (h : String) : Bool :=
  headMatches "10.".data h.data ||
  headMatches "192.168.".data h.data ||
  (headMatches "172.".data h.data &&
    (["16", "17", "18", "19", "20", "21", "22", "23", "24", "25", "26", "27",
      "28", "29", "30", "31"].any
      (fun seg => headMatches (seg ++ ".").data (h.drop 4).data)))

/--
`validateTargetUrl` of the `uploadQrImage` Lambda: reject empty or overlong
input; trim; prepend `https://` when the scheme test fails; parse; restrict the
protocol to `ALLOWED_PROTOCOLS`; in production additionally reject localhost
and private-range hosts; return `urlObj.toString()`.
-/
def validateTargetUrl (isProduction : Bool) (url : String) : Except String String :=
  if url.isEmpty then .error "URL is required and must be a string"
  else if url.length > MAX_URL_LENGTH then .error "URL too long"
  else
    let trimmed := jsTrim url
    let normalizedUrl := if hasHttpScheme trimmed then trimmed else "https://" ++ trimmed
    match parseUrl normalizedUrl with
    | none => .error "Invalid URL format"
    | some u =>
        if !(ALLOWED_PROTOCOLS.contains (urlProtocol u)) then .error "Invalid protocol"
        else if isProduction && (urlHostname u == "localhost" || urlHostname u == "127.0.0.1") then
          .error "Localhost URLs are not allowed in production"
        else if isProduction && isPrivateIp (urlHostname u) then
          .error "Private IP addresses are not allowed in production"
        else .ok (serializeUrl u)

/-- `validateQrId` of the `uploadQrImage` Lambda (`/^[a-zA-Z0-9_-]+$/`, length 50). -/
def validateQrId (qrId : String) : Except String String :=
  if qrId.isEmpty then .error "QR ID is required and must be a string"
  else if qrId.length > 50 then .error "QR ID is too long"
  else if !(qrId.data.all (fun c => c.isAlphanum || c == '_' || c == '-')) then
    .error "QR ID contains invalid characters"
  else .ok qrId

/-- The Lambda's `BASE_URL` fallback. -/
def baseUrl : String := "https://localhost:3000"

/-- `window.location.origin` of the client session. -/
def clientOrigin : String := "https://app.example.test"

/-- The payload parsed from a successful `uploadQrImage` response. -/
structure UploadResult where
  s3Key : String
  trackingUrl : String
  deriving Repr, DecidableEq

/--
The `uploadQrImage` Lambda: validate the URL and the QR id, then render the QR
for `BASE_URL/qr/<id>` and put it under `qr-images/<id>_<timestamp>.png`;
`s3Success` stands for the S3 `PutObjectCommand` outcome, `ts` for the
`Date.now()` read.  Every failure is rethrown as `QR generation failed: ...`.
-/
def uploadQrImage (isProduction s3Success : Bool) (targetUrl qrId ts : String) :
    Except String UploadResult :=
  match validateTargetUrl isProduction targetUrl with
  | .error e => .error ("QR generation failed: " ++ e)
  | .ok _validatedUrl =>
      match validateQrId qrId with
      | .error e => .error ("QR generation failed: " ++ e)
      | .ok validatedQrId =>
          if s3Success then
            .ok ⟨"qr-images/" ++ validatedQrId ++ "_" ++ ts ++ ".png",
              baseUrl ++ "/qr/" ++ validatedQrId⟩
          else .error "QR generation failed: S3 upload error"

/-- The `qrResult` produced by the client hooks. -/
structure QrResult where
  id : String
  targetUrl : String
  qrImageS3Key : String
  trackingUrl : String
  deriving Repr, DecidableEq

/-- Outcome of a `generateQr` call of the client hooks. -/
inductive GenerateOutcome where
  | ok (r : QrResult)
  | error (msg : String)
  deriving Repr, DecidableEq

/--
The dedup lookup of the part_016 hook: `QrItems.list` with a `targetUrl`
equality filter under `userPool` auth, which owner-scopes the visible rows, so
it finds the first of the caller's records with that target URL (`limit: 1`).
The filter does not exclude rows whose `s3Key` is still empty.
-/
def findExistingQr (items : List QrItem) (owner url : String) : Option QrItem :=
  List.find? (fun it => it.ownerSub == some owner && it.targetUrl == url) items

/-- `QrItems.update({ id, s3Key })` after a successful upload. -/
def updateS3Key (items : List QrItem) (id key : String) : List QrItem :=
  items.map (fun it => if it.id == id then { it with s3Key := key } else it)

/--
`generateQr` of the part_016 hook: normalize, dedup by `(owner, targetUrl)`
(returning the existing row unchanged on a hit), otherwise create the row with
`s3Key: ""` first, then call `uploadQrImage`, then write the `s3Key` back.
`newId` stands for the `ulid()` draw, `now` for `new Date().toISOString()`,
`ts` for the Lambda's timestamp.  An upload failure is caught after the row
was created, so the pending row stays in the store.
-/
def generateQrDedup (isProduction s3Success : Bool) (items : List QrItem)
    (owner targetUrl newId now ts : String) : GenerateOutcome × List QrItem :=
  let normalizedUrl := normalizeClientUrl targetUrl
  match findExistingQr items owner normalizedUrl with
  | some existingQr =>
      (.ok ⟨existingQr.id, existingQr.targetUrl, existingQr.s3Key,
        clientOrigin ++ "/qr/" ++ existingQr.id⟩, items)
  | none =>
      let qrItem : QrItem :=
        { id := newId, targetUrl := normalizedUrl, s3Key := "", createdAt := now,
          scanCount := some 0, lastScanAt := none, ownerSub := some owner }
      let items₁ := items ++ [qrItem]
      match uploadQrImage isProduction s3Success normalizedUrl newId ts with
      | .error msg => (.error msg, items₁)
      | .ok uploadData =>
          (.ok ⟨newId, normalizedUrl, uploadData.s3Key, uploadData.trackingUrl⟩,
            updateS3Key items₁ newId uploadData.s3Key)

/--
`generateQr` of the first part_015 hook variant: no dedup lookup; a fresh
`ulid()` is allocated and a row created unconditionally (owner not attached:
the create call passes no `userPool` auth mode).
-/
def generateQrNoDedup (isProduction s3Success : Bool) (items : List QrItem)
    (targetUrl newId now ts : String) : GenerateOutcome × List QrItem :=
  let normalizedUrl := normalizeClientUrl targetUrl
  let qrItem : QrItem :=
    { id := newId, targetUrl := normalizedUrl, s3Key := "", createdAt := now,
      scanCount := some 0, lastScanAt := none, ownerSub := none }
  let items₁ := items ++ [qrItem]
  match uploadQrImage isProduction s3Success normalizedUrl newId ts with
  | .error msg => (.error msg, items₁)
  | .ok uploadData =>
      (.ok ⟨newId, normalizedUrl, uploadData.s3Key, uploadData.trackingUrl⟩,
        updateS3Key items₁ newId uploadData.s3Key)

/-- A one-record store used to exhibit the lost-increment interleaving. -/
def rmwDemoItems : List QrItem :=
  [⟨"qr1", "https://example.com", "qr-images/qr1.png", "t0", some 0, none, some "o"⟩]

/-! ## Rate limiter lemmas and theorems -/

theorem limiterSet_same (s : LimiterStore) (k : String) (e : RateLimitEntry) :
    limiterSet s k e k = some e := by
  simp [limiterSet]

theorem check_fresh (cfg : RateLimitConfig) (s : LimiterStore) (ident : String) (now : Int)
    (h : s (getKey ident) = none) :
    RateLimiter.check cfg s ident now =
      (⟨true, cfg.maxRequests - 1, now + cfg.windowMs⟩,
        limiterSet s (getKey ident) ⟨1, now + cfg.windowMs⟩) := by
  simp [RateLimiter.check, h]

theorem check_expired (cfg : RateLimitConfig) (s : LimiterStore) (ident : String) (now : Int)
    (e : RateLimitEntry) (h : s (getKey ident) = some e) (hw : now > e.resetTime) :
    RateLimiter.check cfg s ident now =
      (⟨true, cfg.maxRequests - 1, now + cfg.windowMs⟩,
        limiterSet s (getKey ident) ⟨1, now + cfg.windowMs⟩) := by
  simp [RateLimiter.check, h, hw]

theorem check_denied (cfg : RateLimitConfig) (s : LimiterStore) (ident : String) (now : Int)
    (e : RateLimitEntry) (h : s (getKey ident) = some e) (hw : ¬ now > e.resetTime)
    (hc : e.count ≥ cfg.maxRequests) :
    RateLimiter.check cfg s ident now = (⟨false, 0, e.resetTime⟩, s) := by
  simp [RateLimiter.check, h, hw, hc]

theorem check_increment (cfg : RateLimitConfig) (s : LimiterStore) (ident : String) (now : Int)
    (e : RateLimitEntry) (h : s (getKey ident) = some e) (hw : ¬ now > e.resetTime)
    (hc : ¬ e.count ≥ cfg.maxRequests) :
    RateLimiter.check cfg s ident now =
      (⟨true, cfg.maxRequests - (e.count + 1), e.resetTime⟩,
        limiterSet s (getKey ident) ⟨e.count + 1, e.resetTime⟩) := by
  simp [RateLimiter.check, h, hw, hc]

theorem checkRun_fst_cons (cfg : RateLimitConfig) (ident : String) (t : Int) (ts : List Int)
    (s : LimiterStore) :
    (checkRun cfg ident (t :: ts) s).1 =
      (RateLimiter.check cfg s ident t).1 ::
        (checkRun cfg ident ts (RateLimiter.check cfg s ident t).2).1 := rfl

/--
Results of a run of `check` calls that all fall inside the window `R` of the
entry currently stored for the identity: with the stored count at `c ≤ N`, the
call at offset `i` is allowed with `remaining = N - (c + i) - 1` while
`c + i < N` and denied with `remaining = 0` (and the unchanged `resetTime`)
afterwards.
-/
theorem checkRun_within_window (cfg : RateLimitConfig) (ident : String) :
    ∀ (ts : List Int) (s : LimiterStore) (c R : Int),
      s (getKey ident) = some ⟨c, R⟩ → c ≤ cfg.maxRequests →
      (∀ t ∈ ts, t ≤ R) →
      ∀ i : Nat, ((checkRun cfg ident ts s).1).get? i =
        (ts.get? i).map (fun _ =>
          if c + (i : Int) < cfg.maxRequests then
            ⟨true, cfg.maxRequests - (c + (i : Int) + 1), R⟩
          else ⟨false, 0, R⟩) := by
  intro ts
  induction ts with
  | nil =>
      intro s c R _ _ _ i
      simp [checkRun]
  | cons t ts ih =>
      intro s c R hs hc hts i
      have htR : ¬ t > R := by
        have := hts t (by simp)
        omega
      by_cases hcm : c ≥ cfg.maxRequests
      · have hstep := check_denied cfg s ident t ⟨c, R⟩ hs htR hcm
        have h1 : (RateLimiter.check cfg s ident t).1 = ⟨false, 0, R⟩ := by rw [hstep]
        have h2 : (RateLimiter.check cfg s ident t).2 = s := by rw [hstep]
        rw [checkRun_fst_cons, h1, h2]
        cases i with
        | zero =>
            have hco : ¬ c < cfg.maxRequests := by omega
            simp [List.get?, hco]
        | succ i =>
            have htail := ih s c R hs hc (fun x hx => hts x (List.mem_cons_of_mem _ hx)) i
            simp only [List.get?] at htail ⊢
            rw [htail]
            cases hx : ts.get? i with
            | none => rfl
            | some x =>
                simp only [Option.map_some']
                congr 1
                split_ifs with ha hb <;>
                  first
                  | rfl
                  | (exfalso; omega)
                  | (simp only [CheckResult.mk.injEq, true_and, and_true]; omega)
      · have hstep := check_increment cfg s ident t ⟨c, R⟩ hs htR hcm
        have h1 : (RateLimiter.check cfg s ident t).1 =
            ⟨true, cfg.maxRequests - (c + 1), R⟩ := by rw [hstep]
        have h2 : (RateLimiter.check cfg s ident t).2 =
            limiterSet s (getKey ident) ⟨c + 1, R⟩ := by rw [hstep]
        rw [checkRun_fst_cons, h1, h2]
        have hc' : c + 1 ≤ cfg.maxRequests := by
          simp at hcm
          omega
        cases i with
        | zero =>
            have hco : c < cfg.maxRequests := by omega
            simp [List.get?, hco]
        | succ i =>
            have htail := ih (limiterSet s (getKey ident) ⟨c + 1, R⟩) (c + 1) R
              (limiterSet_same ..) hc' (fun x hx => hts x (List.mem_cons_of_mem _ hx)) i
            simp only [List.get?] at htail ⊢
            rw [htail]
            cases hx : ts.get? i with
            | none => rfl
            | some x =>
                simp only [Option.map_some']
                congr 1
                split_ifs with ha hb <;>
                  first
                  | rfl
                  | (exfalso; omega)
                  | (simp only [CheckResult.mk.injEq, true_and, and_true]; omega)

/--
C6.  Fixed-window contract of `RateLimiter.check` for a limiter with window `W`
and limit `N ≥ 1` and a single identity, starting with no counter: the first
call creates a counter with `resetTime = t₀ + W` and is allowed with
`remaining = N - 1`; the `i`-th call within the window (1-indexed, `i ≤ N`) is
allowed with `remaining = N - i`; every later call within the window is denied
with `remaining = 0` and the unchanged `resetTime`; and once `now > resetTime`,
the next call is allowed again with a fresh window.
-/
theorem rateLimiter_fixed_window_contract
    (cfg : RateLimitConfig) (identifier : String) (s₀ : LimiterStore) (t₀ : Int)
    (ts : List Int)
    (hN : 1 ≤ cfg.maxRequests)
    (h₀ : s₀ (getKey identifier) = none)
    (hts : ∀ t ∈ ts, t ≤ t₀ + cfg.windowMs) :
    (∀ i : Nat, ((checkRun cfg identifier (t₀ :: ts) s₀).1).get? i =
        ((t₀ :: ts).get? i).map (fun _ =>
          if (i : Int) + 1 ≤ cfg.maxRequests then
            ⟨true, cfg.maxRequests - ((i : Int) + 1), t₀ + cfg.windowMs⟩
          else ⟨false, 0, t₀ + cfg.windowMs⟩)) ∧
    ((RateLimiter.check cfg s₀ identifier t₀).2 (getKey identifier) =
        some ⟨1, t₀ + cfg.windowMs⟩) ∧
    (∀ (s : LimiterStore) (e : RateLimitEntry) (now : Int),
        s (getKey identifier) = some e → now > e.resetTime →
        (RateLimiter.check cfg s identifier now).1 =
            ⟨true, cfg.maxRequests - 1, now + cfg.windowMs⟩ ∧
          (RateLimiter.check cfg s identifier now).2 (getKey identifier) =
            some ⟨1, now + cfg.windowMs⟩) := by
  have hstep := check_fresh cfg s₀ identifier t₀ h₀
  have h1 : (RateLimiter.check cfg s₀ identifier t₀).1 =
      ⟨true, cfg.maxRequests - 1, t₀ + cfg.windowMs⟩ := by rw [hstep]
  have h2 : (RateLimiter.check cfg s₀ identifier t₀).2 =
      limiterSet s₀ (getKey identifier) ⟨1, t₀ + cfg.windowMs⟩ := by rw [hstep]
  refine ⟨?_, ?_, ?_⟩
  · intro i
    rw [checkRun_fst_cons, h1, h2]
    cases i with
    | zero =>
        simp [List.get?, hN]
    | succ i =>
        have htail := checkRun_within_window cfg identifier ts
          (limiterSet s₀ (getKey identifier) ⟨1, t₀ + cfg.windowMs⟩) 1 (t₀ + cfg.windowMs)
          (limiterSet_same ..) hN hts i
        simp only [List.get?] at htail ⊢
        rw [htail]
        cases hx : ts.get? i with
        | none => rfl
        | some x =>
            simp only [Option.map_some']
            congr 1
            split_ifs with ha hb <;>
              first
              | rfl
              | (exfalso; omega)
              | (simp only [CheckResult.mk.injEq, true_and, and_true]; omega)
  · rw [h2]
    exact limiterSet_same ..
  · intro s e now hs hw
    have hstep' := check_expired cfg s identifier now e hs hw
    constructor
    · rw [hstep']
    · have h2' : (RateLimiter.check cfg s identifier now).2 =
          limiterSet s (getKey identifier) ⟨1, now + cfg.windowMs⟩ := by rw [hstep']
      rw [h2']
      exact limiterSet_same ..

/-- Witness for C6 with the limiter `(W = 60s, N = 3)` of the spec example. -/
theorem rateLimiter_fixed_window_contract_witness :
    ((checkRun ⟨60000, 3⟩ "ip" [0, 10, 20, 30] (fun _ => none)).1).get? 3 =
      some ⟨false, 0, 60000⟩ := by
  have h := (rateLimiter_fixed_window_contract ⟨60000, 3⟩ "ip" (fun _ => none) 0 [10, 20, 30]
    (by norm_num) rfl (by intro t ht; fin_cases ht <;> norm_num)).1 3
  norm_num at h
  exact h

/--
C10.  A denied `check` call does not mutate the stored state: when the stored
count has reached `maxRequests` inside the window, the result is
`allowed = false`, `remaining = 0` with the unchanged `resetTime`, and the
store is returned untouched; moreover (for `N ≥ 1`) no `check` call ever
stores a count above `maxRequests`.
-/
theorem rateLimiter_denied_call_preserves_state
    (cfg : RateLimitConfig) (s : LimiterStore) (identifier : String) (now : Int)
    (e : RateLimitEntry)
    (he : s (getKey identifier) = some e)
    (hwin : ¬ now > e.resetTime)
    (hcount : e.count ≥ cfg.maxRequests) :
    (RateLimiter.check cfg s identifier now).1 = ⟨false, 0, e.resetTime⟩ ∧
    (RateLimiter.check cfg s identifier now).2 = s ∧
    (∀ (s₂ : LimiterStore) (e₂ e₃ : RateLimitEntry) (now₂ : Int),
        1 ≤ cfg.maxRequests →
        s₂ (getKey identifier) = some e₂ → e₂.count ≤ cfg.maxRequests →
        (RateLimiter.check cfg s₂ identifier now₂).2 (getKey identifier) = some e₃ →
        e₃.count ≤ cfg.maxRequests) := by
  have hd := check_denied cfg s identifier now e he hwin hcount
  refine ⟨by rw [hd], by rw [hd], ?_⟩
  intro s₂ e₂ e₃ now₂ hN hs₂ hc₂ hres
  by_cases hw₂ : now₂ > e₂.resetTime
  · have h2 : (RateLimiter.check cfg s₂ identifier now₂).2 =
        limiterSet s₂ (getKey identifier) ⟨1, now₂ + cfg.windowMs⟩ := by
      rw [check_expired cfg s₂ identifier now₂ e₂ hs₂ hw₂]
    rw [h2, limiterSet_same] at hres
    cases hres
    simpa using hN
  · by_cases hc₂m : e₂.count ≥ cfg.maxRequests
    · have h2 : (RateLimiter.check cfg s₂ identifier now₂).2 = s₂ := by
        rw [check_denied cfg s₂ identifier now₂ e₂ hs₂ hw₂ hc₂m]
      rw [h2, hs₂] at hres
      cases hres
      exact hc₂
    · have h2 : (RateLimiter.check cfg s₂ identifier now₂).2 =
          limiterSet s₂ (getKey identifier) ⟨e₂.count + 1, e₂.resetTime⟩ := by
        rw [check_increment cfg s₂ identifier now₂ e₂ hs₂ hw₂ hc₂m]
      rw [h2, limiterSet_same] at hres
      cases hres
      simp at hc₂m ⊢
      omega

/-- Witness for C10 at a concrete saturated entry. -/
theorem rateLimiter_denied_call_preserves_state_witness :
    (RateLimiter.check ⟨60000, 3⟩
        (fun k => if k = getKey "ip" then some ⟨3, 60000⟩ else none) "ip" 100).1 =
      ⟨false, 0, 60000⟩ := by
  have h := rateLimiter_denied_call_preserves_state ⟨60000, 3⟩
    (fun k => if k = getKey "ip" then some ⟨3, 60000⟩ else none) "ip" 100 ⟨3, 60000⟩
    (by simp) (by norm_num) (by norm_num)
  exact h.1

/-! ## Tracking theorems -/

/--
C5.  `track` on a nonexistent id fails NotFound (the REST handler answers 404,
the GraphQL handler throws "QR code not found") and leaves both tables exactly
as they were: no ScanEvent row is appended and no counter is touched.
-/
theorem track_unknown_id_leaves_state_unchanged
    (st : QrDataStore) (id : String) (meta : ScanMeta) (now : String)
    (h : getQrItem st.items id = none) :
    trackRest st (some id) meta now = (.notFound, st) ∧
    trackQrGql st (some id) now = (.err "QR code not found", st) := by
  constructor
  · simp [trackRest, h]
  · simp [trackQrGql, h]

/-- Witness for C5 at an empty store. -/
theorem track_unknown_id_leaves_state_unchanged_witness :
    trackRest ⟨[], []⟩ (some "missing") ⟨"", "", "", ""⟩ "t" = (.notFound, ⟨[], []⟩) ∧
    trackQrGql ⟨[], []⟩ (some "missing") "t" = (.err "QR code not found", ⟨[], []⟩) :=
  track_unknown_id_leaves_state_unchanged ⟨[], []⟩ "missing" ⟨"", "", "", ""⟩ "t" rfl

/--
C1 (failing execution).  The GraphQL `trackQr` handler updates the counter as
`currentScanCount + 1` with the value read from its own earlier `get` — a
service-layer read-modify-write.  Interleaving two such calls on a record with
`scanCount = 0` (both reads before either write) ends at `scanCount = 1`, not
the claimed `0 + 2`; the REST handler's store-level atomic increment applied
twice does end at `2`.
-/
theorem trackQr_concurrent_rmw_loses_increment :
    readScanCount
        (writeScanCount
          (writeScanCount rmwDemoItems "qr1" (readScanCount rmwDemoItems "qr1" + 1) "t1")
          "qr1" (readScanCount rmwDemoItems "qr1" + 1) "t2") "qr1" = 1 ∧
    readScanCount
        (atomicIncrementScan (atomicIncrementScan rmwDemoItems "qr1" "t1") "qr1" "t2") "qr1" = 2 ∧
    (1 : Int) ≠ 0 + 2 := by
  refine ⟨rfl, rfl, by norm_num⟩

/-! ## Generation lemmas and theorems -/

theorem updateS3Key_id_absent (newId key : String) :
    ∀ items : List QrItem, (∀ x ∈ items, x.id ≠ newId) →
      updateS3Key items newId key = items := by
  intro items
  induction items with
  | nil => intro _; rfl
  | cons a l ih =>
      intro h
      have ha : (a.id == newId) = false :=
        beq_eq_false_iff_ne.mpr (h a (List.mem_cons_self a l))
      have hrest := ih (fun x hx => h x (List.mem_cons_of_mem a hx))
      unfold updateS3Key at hrest ⊢
      rw [List.map_cons, hrest, ha]
      simp

theorem updateS3Key_append (items₁ items₂ : List QrItem) (newId key : String) :
    updateS3Key (items₁ ++ items₂) newId key =
      updateS3Key items₁ newId key ++ updateS3Key items₂ newId key := by
  simp [updateS3Key]

theorem findExistingQr_append (items₁ items₂ : List QrItem) (owner url : String) :
    findExistingQr (items₁ ++ items₂) owner url =
      (findExistingQr items₁ owner url).or (findExistingQr items₂ owner url) := by
  simp [findExistingQr, List.find?_append]

/-- The record created and completed by a fresh, successful `generateQr` call. -/
theorem generateQrDedup_fresh_success (isProd s3ok : Bool) (items : List QrItem)
    (owner dest newId now ts : String) (up : UploadResult)
    (hfresh : ∀ it ∈ items, it.id ≠ newId)
    (hnone : findExistingQr items owner (normalizeClientUrl dest) = none)
    (hup : uploadQrImage isProd s3ok (normalizeClientUrl dest) newId ts = .ok up) :
    generateQrDedup isProd s3ok items owner dest newId now ts =
      (.ok ⟨newId, normalizeClientUrl dest, up.s3Key, up.trackingUrl⟩,
        items ++ [⟨newId, normalizeClientUrl dest, up.s3Key, now, some 0, none, some owner⟩]) := by
  simp only [generateQrDedup, hnone, hup]
  rw [updateS3Key_append, updateS3Key_id_absent newId up.s3Key items hfresh]
  simp [updateS3Key]

/--
C2 (amended, for the dedup variant of `generateQr`).  For the part_016 hook:
a fresh, successful `generate` persists exactly one record; a second call with
the same `(owner, destination)` pair returns the same `id` with the store
unchanged (no new record); and a call with a different destination for the
same owner returns a different `id`.
-/
theorem generateQrDedup_idempotent_per_pair
    (isProd s3ok isProd₂ s3ok₂ : Bool) (items : List QrItem)
    (owner dest id₁ id₂ now ts now₂ ts₂ : String) (up : UploadResult)
    (hfresh : ∀ it ∈ items, it.id ≠ id₁)
    (hnone : findExistingQr items owner (normalizeClientUrl dest) = none)
    (hup : uploadQrImage isProd s3ok (normalizeClientUrl dest) id₁ ts = .ok up) :
    (generateQrDedup isProd s3ok items owner dest id₁ now ts =
      (.ok ⟨id₁, normalizeClientUrl dest, up.s3Key, up.trackingUrl⟩,
        items ++ [⟨id₁, normalizeClientUrl dest, up.s3Key, now, some 0, none, some owner⟩])) ∧
    (generateQrDedup isProd₂ s3ok₂
        (generateQrDedup isProd s3ok items owner dest id₁ now ts).2 owner dest id₂ now₂ ts₂ =
      (.ok ⟨id₁, normalizeClientUrl dest, up.s3Key, clientOrigin ++ "/qr/" ++ id₁⟩,
        (generateQrDedup isProd s3ok items owner dest id₁ now ts).2)) ∧
    (∀ (dest₂ id₃ now₃ ts₃ : String) (isProd₃ s3ok₃ : Bool) (up₃ : UploadResult),
        normalizeClientUrl dest₂ ≠ normalizeClientUrl dest →
        findExistingQr items owner (normalizeClientUrl dest₂) = none →
        uploadQrImage isProd₃ s3ok₃ (normalizeClientUrl dest₂) id₃ ts₃ = .ok up₃ →
        id₃ ≠ id₁ →
        (generateQrDedup isProd₃ s3ok₃
            (generateQrDedup isProd s3ok items owner dest id₁ now ts).2 owner
            dest₂ id₃ now₃ ts₃).1 =
          .ok ⟨id₃, normalizeClientUrl dest₂, up₃.s3Key, up₃.trackingUrl⟩ ∧ id₃ ≠ id₁) := by
  have hfirst := generateQrDedup_fresh_success isProd s3ok items owner dest id₁ now ts up
    hfresh hnone hup
  have hitems₁ : (generateQrDedup isProd s3ok items owner dest id₁ now ts).2 =
      items ++ [⟨id₁, normalizeClientUrl dest, up.s3Key, now, some 0, none, some owner⟩] := by
    rw [hfirst]
  refine ⟨hfirst, ?_, ?_⟩
  · rw [hitems₁]
    have hfind : findExistingQr
        (items ++ [⟨id₁, normalizeClientUrl dest, up.s3Key, now, some 0, none, some owner⟩])
        owner (normalizeClientUrl dest) =
        some ⟨id₁, normalizeClientUrl dest, up.s3Key, now, some 0, none, some owner⟩ := by
      rw [findExistingQr_append, hnone]
      simp [findExistingQr]
    simp only [generateQrDedup, hfind]
  · intro dest₂ id₃ now₃ ts₃ isProd₃ s3ok₃ up₃ hne hnone₂ hup₃ hid
    refine ⟨?_, hid⟩
    rw [hitems₁]
    have hfind₂ : findExistingQr
        (items ++ [⟨id₁, normalizeClientUrl dest, up.s3Key, now, some 0, none, some owner⟩])
        owner (normalizeClientUrl dest₂) = none := by
      rw [findExistingQr_append, hnone₂]
      simp [findExistingQr, beq_eq_false_iff_ne.mpr (Ne.symm hne)]
    simp only [generateQrDedup, hfind₂, hup₃]

/--
Witness for C2 (amended): with owner `o` and destination `example.com`, the
second call returns the first call's id `A1` and leaves the store unchanged.
-/
theorem generateQrDedup_idempotent_per_pair_witness :
    (generateQrDedup false true
        (generateQrDedup false true [] "o" "example.com" "A1" "t0" "111").2
        "o" "example.com" "A2" "t1" "222").1 =
      .ok ⟨"A1", "https://example.com", "qr-images/A1_111.png",
        "https://app.example.test/qr/A1"⟩ := by
  have h := generateQrDedup_idempotent_per_pair false true false true [] "o" "example.com"
    "A1" "A2" "t0" "111" "t1" "222" ⟨"qr-images/A1_111.png", "https://localhost:3000/qr/A1"⟩
    (by simp) rfl rfl
  rw [h.2.1]
  rfl

/--
C2 (counterexample).  The part_015 hook variant allocates a fresh `ulid()` and
creates a record unconditionally: two calls with the same destination return
two different ids and leave two records in the store, so `generate` as shipped
in that variant is not idempotent per `(ownerId, destination)` pair.
-/
theorem generateQrNoDedup_not_idempotent :
    (generateQrNoDedup false true [] "example.com" "A1" "t0" "111").1 =
      .ok ⟨"A1", "https://example.com", "qr-images/A1_111.png",
        "https://localhost:3000/qr/A1"⟩ ∧
    (generateQrNoDedup false true
        (generateQrNoDedup false true [] "example.com" "A1" "t0" "111").2
        "example.com" "A2" "t1" "222").1 =
      .ok ⟨"A2", "https://example.com", "qr-images/A2_222.png",
        "https://localhost:3000/qr/A2"⟩ ∧
    ("A2" : String) ≠ "A1" ∧
    (generateQrNoDedup false true
        (generateQrNoDedup false true [] "example.com" "A1" "t0" "111").2
        "example.com" "A2" "t1" "222").2.length = 2 := by
  refine ⟨rfl, rfl, by decide, rfl⟩

/--
C3 (failing execution).  A `generate` whose image upload fails has already
persisted the record with `s3Key = ""`, and a later `generate` call for the
same pair finds that pending record through the dedup lookup (which filters on
`targetUrl` only) and returns it with an empty image key.
-/
theorem generateQr_pending_record_visible :
    (generateQrDedup false false [] "o" "example.com" "id1" "t0" "111").1 =
      .error "QR generation failed: S3 upload error" ∧
    (generateQrDedup false false [] "o" "example.com" "id1" "t0" "111").2 =
      [⟨"id1", "https://example.com", "", "t0", some 0, none, some "o"⟩] ∧
    (generateQrDedup false true
        (generateQrDedup false false [] "o" "example.com" "id1" "t0" "111").2
        "o" "example.com" "id2" "t1" "222").1 =
      .ok ⟨"id1", "https://example.com", "", "https://app.example.test/qr/id1"⟩ := by
  refine ⟨rfl, rfl, rfl⟩

/--
C4 (failing execution).  For the destination `javascript:alert(1)` the client
hook creates the record first (`QrItems.create` with the normalized URL and
`s3Key = ""`); only then does the Lambda-side validation reject the URL, so
`generate` fails but a record has been persisted.
-/
theorem generateQr_dangerous_scheme_persists_record :
    (generateQrDedup false true [] "o" "javascript:alert(1)" "id1" "t0" "111").1 =
      .error "QR generation failed: Invalid URL format" ∧
    (generateQrDedup false true [] "o" "javascript:alert(1)" "id1" "t0" "111").2 =
      [⟨"id1", "https://javascript:alert(1)", "", "t0", some 0, none, some "o"⟩] := by
  refine ⟨rfl, rfl⟩

/-! ## URL parser lemmas and the normalization theorem -/

theorem headMatches_append_self : ∀ (sep l : List Char), headMatches sep (sep ++ l) = true := by
  intro sep
  induction sep with
  | nil => intro l; rfl
  | cons p ps ih =>
      intro l
      simp [headMatches, ih]

theorem splitFirstSep_cons (sep : List Char) (c : Char) (cs : List Char) :
    splitFirstSep sep (c :: cs) =
      if headMatches sep (c :: cs) then some ([], (c :: cs).drop sep.length)
      else (splitFirstSep sep cs).map (fun p => (c :: p.1, p.2)) := rfl

theorem splitFirstSep_append (s₀ : Char) (ss b : List Char) :
    ∀ a : List Char, (∀ c ∈ a, c ≠ s₀) →
      splitFirstSep (s₀ :: ss) (a ++ (s₀ :: ss) ++ b) = some (a, b) := by
  intro a
  induction a with
  | nil =>
      intro _
      have hm : headMatches (s₀ :: ss) (s₀ :: (ss ++ b)) = true :=
        headMatches_append_self (s₀ :: ss) b
      have hdrop : (s₀ :: (ss ++ b)).drop (s₀ :: ss).length = b :=
        List.drop_left (s₀ :: ss) b
      show splitFirstSep (s₀ :: ss) (s₀ :: (ss ++ b)) = some ([], b)
      rw [splitFirstSep_cons, hm, hdrop]
      simp
  | cons c a ih =>
      intro h
      have hc : (s₀ == c) = false :=
        beq_eq_false_iff_ne.mpr (Ne.symm (h c (List.mem_cons_self c a)))
      have hm : headMatches (s₀ :: ss) (c :: (a ++ (s₀ :: ss) ++ b)) = false := by
        simp [headMatches, hc]
      show splitFirstSep (s₀ :: ss) (c :: (a ++ (s₀ :: ss) ++ b)) = some (c :: a, b)
      rw [splitFirstSep_cons, hm]
      rw [ih (fun x hx => h x (List.mem_cons_of_mem c hx))]
      simp

theorem splitFirstSep_none (s₀ : Char) (ss : List Char) :
    ∀ l : List Char, (∀ c ∈ l, c ≠ s₀) → splitFirstSep (s₀ :: ss) l = none := by
  intro l
  induction l with
  | nil => intro _; rfl
  | cons c cs ih =>
      intro h
      have hc : (s₀ == c) = false :=
        beq_eq_false_iff_ne.mpr (Ne.symm (h c (List.mem_cons_self c cs)))
      have hm : headMatches (s₀ :: ss) (c :: cs) = false := by
        simp [headMatches, hc]
      rw [splitFirstSep_cons, hm]
      rw [ih (fun x hx => h x (List.mem_cons_of_mem c hx))]
      simp

theorem takeWhile_append_of_all {α : Type} (p : α → Bool) :
    ∀ (l₁ l₂ : List α), (∀ x ∈ l₁, p x = true) →
      (l₁ ++ l₂).takeWhile p = l₁ ++ l₂.takeWhile p := by
  intro l₁
  induction l₁ with
  | nil => intro l₂ _; rfl
  | cons a l ih =>
      intro l₂ h
      have ha : p a = true := h a (List.mem_cons_self a l)
      simp only [List.cons_append, List.takeWhile_cons, ha, if_true]
      rw [ih l₂ (fun x hx => h x (List.mem_cons_of_mem a hx))]

theorem dropWhile_append_of_all {α : Type} (p : α → Bool) :
    ∀ (l₁ l₂ : List α), (∀ x ∈ l₁, p x = true) →
      (l₁ ++ l₂).dropWhile p = l₂.dropWhile p := by
  intro l₁
  induction l₁ with
  | nil => intro l₂ _; rfl
  | cons a l ih =>
      intro l₂ h
      have ha : p a = true := h a (List.mem_cons_self a l)
      simp only [List.cons_append, List.dropWhile_cons, ha, if_true]
      exact ih l₂ (fun x hx => h x (List.mem_cons_of_mem a hx))

theorem dropWhile_head_false {α : Type} (p : α → Bool) :
    ∀ (l : List α) (a : α) (as : List α), l.dropWhile p = a :: as → p a = false := by
  intro l
  induction l with
  | nil => intro a as h; cases h
  | cons c cs ih =>
      intro a as h
      rw [List.dropWhile_cons] at h
      by_cases hc : p c
      · rw [if_pos hc] at h
        exact ih a as h
      · rw [if_neg hc] at h
        injection h with h1 _
        rw [← h1]
        simpa using hc

/-- Inversion of a successful model URL parse. -/
theorem parseUrlChars_inv (l : List Char) (u : UrlParts) (h : parseUrlChars l = some u) :
    ∃ rest : List Char,
      splitFirstSep schemeSepChars l = some (u.scheme, rest) ∧
      schemeOkChars u.scheme = true ∧
      hostOkChars u.host = true ∧
      (u.port.isEmpty || u.port.all Char.isDigit) = true ∧
      u.path = rest.dropWhile (fun c => !(c == '/')) := by
  unfold parseUrlChars at h
  cases hsp : splitFirstSep schemeSepChars l with
  | none => rw [hsp] at h; cases h
  | some pr =>
      obtain ⟨sch, rest⟩ := pr
      rw [hsp] at h
      dsimp only at h
      by_cases hso : schemeOkChars sch = true
      · rw [if_pos hso] at h
        cases hhp : splitHostPort (rest.takeWhile fun c => !(c == '/')) with
        | none => rw [hhp] at h; cases h
        | some hp =>
            obtain ⟨hh, pp⟩ := hp
            rw [hhp] at h
            dsimp only at h
            by_cases hok : (hostOkChars hh && (pp.isEmpty || pp.all Char.isDigit)) = true
            · rw [if_pos hok] at h
              rw [Bool.and_eq_true] at hok
              injection h with h
              subst h
              exact ⟨rest, rfl, hso, hok.1, hok.2, rfl⟩
            · rw [if_neg hok] at h
              cases h
      · rw [if_neg hso] at h
        cases h

theorem isAlpha_ne_colon (c : Char) (h : c.isAlpha = true) : c ≠ ':' := by
  intro hc
  subst hc
  exact absurd h (by decide)

theorem isHostChar_ne_colon (c : Char) (h : isHostChar c = true) : c ≠ ':' := by
  intro hc
  subst hc
  exact absurd h (by decide)

theorem isHostChar_ne_slash (c : Char) (h : isHostChar c = true) : c ≠ '/' := by
  intro hc
  subst hc
  exact absurd h (by decide)

theorem isDigit_ne_colon (c : Char) (h : c.isDigit = true) : c ≠ ':' := by
  intro hc
  subst hc
  exact absurd h (by decide)

theorem isDigit_ne_slash (c : Char) (h : c.isDigit = true) : c ≠ '/' := by
  intro hc
  subst hc
  exact absurd h (by decide)

/--
Re-parsing a serialized URL succeeds and preserves the scheme, for components
that a successful parse can produce.
-/
theorem parseUrlChars_serialize (u : UrlParts)
    (hs : schemeOkChars u.scheme = true)
    (hh : hostOkChars u.host = true)
    (hp : (u.port.isEmpty || u.port.all Char.isDigit) = true)
    (hpath : ∀ a as, u.path = a :: as → a = '/') :
    ∃ v : UrlParts, parseUrlChars (serializeUrlChars u) = some v ∧ v.scheme = u.scheme := by
  have hsAll : u.scheme.all Char.isAlpha = true := by
    have hs' := hs
    unfold schemeOkChars at hs'
    rw [Bool.and_eq_true] at hs'
    exact hs'.2
  have hsch : ∀ c ∈ u.scheme, c ≠ ':' := fun c hc =>
    isAlpha_ne_colon c (List.all_eq_true.mp hsAll c hc)
  have hhAll : u.host.all isHostChar = true := by
    have hh' := hh
    unfold hostOkChars at hh'
    rw [Bool.and_eq_true] at hh'
    exact hh'.2
  have hhost : ∀ c ∈ u.host, isHostChar c = true := List.all_eq_true.mp hhAll
  have hhostNoColon : ∀ c ∈ u.host, c ≠ ':' := fun c hc =>
    isHostChar_ne_colon c (hhost c hc)
  have hser : serializeUrlChars u =
      u.scheme ++ schemeSepChars ++
        ((u.host ++ (if u.port.isEmpty then [] else ':' :: u.port)) ++
          (if u.path.isEmpty then ['/'] else u.path)) := by
    unfold serializeUrlChars
    simp [List.append_assoc]
  have hauthChars : ∀ c ∈ u.host ++ (if u.port.isEmpty then [] else ':' :: u.port),
      (!(c == '/')) = true := by
    intro c hc
    rcases List.mem_append.mp hc with hmem | hmem
    · simp [beq_eq_false_iff_ne.mpr (isHostChar_ne_slash c (hhost c hmem))]
    · by_cases hpe : u.port.isEmpty
      · rw [if_pos hpe] at hmem
        simp at hmem
      · rw [if_neg hpe] at hmem
        have hdig : u.port.all Char.isDigit = true := by
          have hp' := hp
          rw [Bool.or_eq_true] at hp'
          rcases hp' with h' | h'
          · exact absurd h' hpe
          · exact h'
        rcases List.mem_cons.mp hmem with hmem | hmem
        · subst hmem
          decide
        · have := List.all_eq_true.mp hdig c hmem
          simp [beq_eq_false_iff_ne.mpr (isDigit_ne_slash c this)]
  have hpathShape : (if u.path.isEmpty then ['/'] else u.path) = [] ∨
      ∃ t, (if u.path.isEmpty then ['/'] else u.path) = '/' :: t := by
    right
    by_cases hpe : u.path.isEmpty
    · exact ⟨[], by rw [if_pos hpe]⟩
    · rw [if_neg hpe]
      cases hpp : u.path with
      | nil => rw [hpp] at hpe; exact absurd rfl hpe
      | cons a as =>
          have := hpath a as hpp
          exact ⟨as, by rw [this]⟩
  obtain ⟨t, hpt⟩ := hpathShape.resolve_left (by
    by_cases hpe : u.path.isEmpty
    · simp [hpe]
    · intro hnil
      rw [if_neg hpe] at hnil
      rw [hnil] at hpe
      exact hpe rfl)
  have htake : ((u.host ++ (if u.port.isEmpty then [] else ':' :: u.port)) ++
        (if u.path.isEmpty then ['/'] else u.path)).takeWhile (fun c => !(c == '/')) =
      u.host ++ (if u.port.isEmpty then [] else ':' :: u.port) := by
    rw [takeWhile_append_of_all _ _ _ hauthChars, hpt]
    rw [List.takeWhile_cons]
    simp
  have hdropw : ((u.host ++ (if u.port.isEmpty then [] else ':' :: u.port)) ++
        (if u.path.isEmpty then ['/'] else u.path)).dropWhile (fun c => !(c == '/')) =
      (if u.path.isEmpty then ['/'] else u.path) := by
    rw [dropWhile_append_of_all _ _ _ hauthChars, hpt]
    rw [List.dropWhile_cons]
    simp
  have hsp2 : splitHostPort (u.host ++ (if u.port.isEmpty then [] else ':' :: u.port)) =
      some (u.host, u.port) := by
    by_cases hpe : u.port.isEmpty
    · rw [if_pos hpe]
      rw [List.append_nil]
      unfold splitHostPort
      rw [splitFirstSep_none ':' [] u.host hhostNoColon]
      dsimp only
      rw [List.isEmpty_iff.mp hpe]
    · rw [if_neg hpe]
      have hdig : u.port.all Char.isDigit = true := by
        have hp' := hp
        rw [Bool.or_eq_true] at hp'
        rcases hp' with h' | h'
        · exact absurd h' hpe
        · exact h'
      have hnotmem : ':' ∉ u.port := fun hmem =>
        absurd rfl (isDigit_ne_colon ':' (List.all_eq_true.mp hdig ':' hmem))
      have hnc : u.port.contains ':' = false := by simpa using hnotmem
      unfold splitHostPort
      rw [show u.host ++ ':' :: u.port = u.host ++ [':'] ++ u.port by simp]
      rw [splitFirstSep_append ':' [] u.port u.host hhostNoColon]
      dsimp only
      rw [hnc]
      simp
  refine ⟨⟨u.scheme, u.host, u.port, if u.path.isEmpty then ['/'] else u.path⟩, ?_, rfl⟩
  rw [hser]
  unfold parseUrlChars
  rw [show (schemeSepChars : List Char) = ':' :: ['/', '/'] from rfl]
  rw [show u.scheme ++ ':' :: ['/', '/'] ++
        ((u.host ++ (if u.port.isEmpty then [] else ':' :: u.port)) ++
          (if u.path.isEmpty then ['/'] else u.path)) =
      u.scheme ++ (':' :: ['/', '/']) ++
        ((u.host ++ (if u.port.isEmpty then [] else ':' :: u.port)) ++
          (if u.path.isEmpty then ['/'] else u.path)) from rfl]
  rw [splitFirstSep_append ':' ['/', '/'] _ u.scheme hsch]
  dsimp only
  rw [if_pos hs]
  rw [htake, hdropw, hsp2]
  dsimp only
  rw [hh]
  rw [hp]
  simp

/--
C9.  Every destination accepted by the Lambda's `validateTargetUrl` is stored
in a form that parses (in the model URL parser) as an absolute URL whose
protocol is in `ALLOWED_PROTOCOLS`; when the trimmed input lacks an http(s)
scheme, the stored form carries the prefixed default secure scheme
`https://`; and the client hook's normalization prefixes `https://` to every
input that fails the scheme test.
-/
theorem generate_normalizes_and_stores_absolute
    (isProd : Bool) (url out : String)
    (hok : validateTargetUrl isProd url = .ok out) :
    (∃ v : UrlParts, parseUrl out = some v ∧
        ALLOWED_PROTOCOLS.contains (urlProtocol v) = true) ∧
    (hasHttpScheme (jsTrim url) = false → ∃ r : String, out = "https://" ++ r) ∧
    (∀ s : String, hasHttpScheme s = false → normalizeClientUrl s = "https://" ++ s) := by
  unfold validateTargetUrl at hok
  by_cases h1 : url.isEmpty
  · rw [if_pos h1] at hok; cases hok
  rw [if_neg h1] at hok
  by_cases h2 : url.length > MAX_URL_LENGTH
  · rw [if_pos h2] at hok; cases hok
  rw [if_neg h2] at hok
  dsimp only at hok
  cases hparse : parseUrl
      (if hasHttpScheme (jsTrim url) then jsTrim url else "https://" ++ jsTrim url) with
  | none => rw [hparse] at hok; cases hok
  | some u =>
      rw [hparse] at hok
      dsimp only at hok
      by_cases hprot : (!(ALLOWED_PROTOCOLS.contains (urlProtocol u))) = true
      · rw [if_pos hprot] at hok; cases hok
      rw [if_neg hprot] at hok
      by_cases hloc :
          (isProd && (urlHostname u == "localhost" || urlHostname u == "127.0.0.1")) = true
      · rw [if_pos hloc] at hok; cases hok
      rw [if_neg hloc] at hok
      by_cases hpriv : (isProd && isPrivateIp (urlHostname u)) = true
      · rw [if_pos hpriv] at hok; cases hok
      rw [if_neg hpriv] at hok
      injection hok with hout
      have hcont : ALLOWED_PROTOCOLS.contains (urlProtocol u) = true := by
        simpa using hprot
      obtain ⟨rest, hsp, hso, hho, hpo, hpa⟩ := parseUrlChars_inv _ u hparse
      have hpath : ∀ a as, u.path = a :: as → a = '/' := by
        intro a as hcons
        rw [hpa] at hcons
        have := dropWhile_head_false _ rest a as hcons
        simpa using this
      obtain ⟨v, hv, hvs⟩ := parseUrlChars_serialize u hso hho hpo hpath
      refine ⟨⟨v, ?_, ?_⟩, ?_, ?_⟩
      · rw [← hout]
        exact hv
      · have hproto : urlProtocol v = urlProtocol u := by
          unfold urlProtocol
          rw [hvs]
        rw [hproto]
        exact hcont
      · intro hns
        rw [hns] at hsp
        simp only [Bool.false_eq_true, if_false] at hsp
        have hsplit2 : splitFirstSep schemeSepChars ("https://" ++ jsTrim url).data =
            some ("https".data, (jsTrim url).data) := by
          rw [String.data_append]
          rw [show ("https://".data : List Char) = "https".data ++ (':' :: ['/', '/']) from rfl]
          exact splitFirstSep_append ':' ['/', '/'] (jsTrim url).data "https".data (by decide)
        have h12 := hsp.symm.trans hsplit2
        injection h12 with h12
        have hscheme : u.scheme = "https".data := congrArg Prod.fst h12
        refine ⟨String.mk (u.host ++ (if u.port.isEmpty then [] else ':' :: u.port) ++
          (if u.path.isEmpty then ['/'] else u.path)), ?_⟩
        rw [← hout]
        show String.mk (serializeUrlChars u) = _
        rw [show ("https://" : String) ++ String.mk (u.host ++
              (if u.port.isEmpty then [] else ':' :: u.port) ++
              (if u.path.isEmpty then ['/'] else u.path)) =
            String.mk ("https://".data ++ (u.host ++
              (if u.port.isEmpty then [] else ':' :: u.port) ++
              (if u.path.isEmpty then ['/'] else u.path))) from rfl]
        apply congrArg String.mk
        unfold serializeUrlChars
        rw [hscheme]
        rw [show ("https://".data : List Char) = "https".data ++ schemeSepChars from rfl]
        simp [List.append_assoc]
      · intro s hns
        unfold normalizeClientUrl
        rw [hns]
        simp

/-- Witness for C9 at the destination `example.com`. -/
theorem generate_normalizes_and_stores_absolute_witness :
    (∃ v : UrlParts, parseUrl "https://example.com/" = some v ∧
        ALLOWED_PROTOCOLS.contains (urlProtocol v) = true) ∧
    (hasHttpScheme (jsTrim "example.com") = false →
      ∃ r : String, ("https://example.com/" : String) = "https://" ++ r) ∧
    (∀ s : String, hasHttpScheme s = false → normalizeClientUrl s = "https://" ++ s) :=
  generate_normalizes_and_stores_absolute false "example.com" "https://example.com/" rfl

end AwsCebuDemo
